import Mathlib

/-!
Shallow embedding of `go-sieve` (file `sieve.go`), a SIEVE-policy cache.

Modelling conventions, each justified by the source:

* The doubly linked list (`head`/`tail`/`next`/`prev` pointers of `node`)
  is modelled as a `List` in head→tail order.  Splicing a node out of the
  Go list is deletion from the `List`; insertion at `s.head` is `::`.
* The Go map `s.cache` is kept in lock-step with the list by the source
  (`add` inserts into both, `remove` deletes from both, `Purge` clears
  both), so it is modelled as first-match lookup on the list
  (`lookupNode`).  Keys are never duplicated in reachable states because
  `add` runs only when the map misses.
* `size` and `capacity` are Go `int`s, modelled as `Int` (note that
  `Purge` does NOT reset `size` in the source, and `remove` decrements
  it unconditionally, so we keep it a separate, possibly-stale field
  exactly as the source does).
* `s.hand` is a pointer to a live node; a live node is identified by its
  key, so the field is `Option K`.  No statement in `sieve.go` ever
  assigns `s.hand` (`evict` copies it into a local variable), so the
  field stays `none`; the `some` branch of `startSplit` models a hand
  resting on a live node and is unreachable.
* The mutex serialises operations; each public operation is modelled as
  a pure state transformer.
-/

namespace GoSieve

/-- Go `node[K,V]`: key, value and the SIEVE visited bit.  The `next`/`prev`
links are represented by the node's position in the cache's list. -/
structure SNode (K V : Type) where
  key : K
  val : V
  visited : Bool
deriving Repr, DecidableEq

/-- Go `Sieve[K,V]`: `list` models `head`/`tail` and the link fields (head
first), `hand` the persistent cursor field, `size` and `capacity` the two
`int` fields.  The map `cache` is derived: see `lookupNode`. -/
structure Sieve (K V : Type) where
  list : List (SNode K V)
  hand : Option K
  size : Int
  capacity : Int
deriving Repr, DecidableEq

variable {K V : Type} [DecidableEq K] [Inhabited V]

/-- Go `s.cache[key]` lookup: the map holds exactly the nodes of the list,
keyed by `node.key`. -/
def lookupNode (s : Sieve K V) (k : K) : Option (SNode K V) :=
  s.list.find? (fun n => decide (n.key = k))

/-- Go `NewSieveCache(capacity)`: empty map and list, zero size; the
capacity is stored unchecked. -/
def NewSieveCache (K V : Type) (capacity : Int) : Sieve K V :=
  { list := [], hand := none, size := 0, capacity := capacity }

/-- `v.visited = true` performed through the map reference: rewrite the
node carrying key `k` in place. -/
def markVisited (k : K) (l : List (SNode K V)) : List (SNode K V) :=
  l.map (fun n => if n.key = k then { n with visited := true } else n)

/-- The body of Go `evict`'s scan loop.  `todo` is the segment of the
reversed list (tail of the cache first) still ahead of the hand this pass,
`done` the segment already behind it (flags cleared as they were passed).
`hand = hand.prev` is advancing in `todo`; `hand == nil → hand = s.tail`
is the wrap that restarts on the full current content.  The loop has no
counter in Go; the `fuel` argument only bounds the recursion and is chosen
large enough to never be hit (theorem `claim_C8_evict_one_pass`). -/
def evictFrom : Nat → List (SNode K V) → List (SNode K V) → List (SNode K V) × Option (SNode K V)
  | 0, done, todo => (done ++ todo, none)
  | Nat.succ fuel, done, todo =>
    match todo with
    | [] =>
      match done with
      | [] => ([], none)
      | d :: ds => evictFrom fuel [] (d :: ds)
    | n :: rest =>
      if n.visited then
        evictFrom fuel (done ++ [{ n with visited := false }]) rest
      else
        (done ++ rest, some n)

/-- Go `evict`'s initialisation `hand := s.hand; if hand == nil { hand =
s.tail }`: split the reversed list at the node the stored hand rests on
(the whole list from the tail when the hand is nil, which is always the
case since the field is never assigned). -/
def startSplit (s : Sieve K V) (r : List (SNode K V)) :
    List (SNode K V) × List (SNode K V) :=
  match s.hand with
  | none => ([], r)
  | some k =>
    match r.findIdx? (fun n => decide (n.key = k)) with
    | some i => (r.take i, r.drop i)
    | none => ([], r)

/-- Go `evict`: sweep from the hand towards the head, wrapping at the end;
evict the first unvisited node (Go `s.remove(hand)`: delete from map,
splice out of list, `size -= 1`).  `s.hand` is not written back.  On an
empty list the loop body never runs and nothing changes. -/
def evict (s : Sieve K V) : Sieve K V :=
  let r := s.list.reverse
  let p := startSplit s r
  match evictFrom (r.length + 2) p.1 p.2 with
  | (r2, some _) => { s with list := r2.reverse, size := s.size - 1 }
  | (_, none) => s

/-- Go private `add(key, val)`: evict when `size == capacity` (exact
equality test), then link a fresh unvisited node at the head and grow
`size`. -/
def addNew (s : Sieve K V) (k : K) (v : V) : Sieve K V :=
  let s := if s.size = s.capacity then evict s else s
  { s with list := ⟨k, v, false⟩ :: s.list, size := s.size + 1 }

/-- Go `Get`: on a map hit set `visited` and return the stored value with
`true`; on a miss return the zero value (`default`) and `false`, touching
nothing. -/
def Get (s : Sieve K V) (k : K) : (V × Bool) × Sieve K V :=
  match lookupNode s k with
  | some n => ((n.val, true), { s with list := markVisited k s.list })
  | none => ((default, false), s)

/-- Go `Add`: on a hit set `visited`, overwrite the value in place and
report `true`; otherwise insert via `add` and report `false`. -/
def Add (s : Sieve K V) (k : K) (v : V) : Bool × Sieve K V :=
  match lookupNode s k with
  | some _ =>
    (true, { s with
      list := s.list.map (fun n =>
        if n.key = k then { n with visited := true, val := v } else n) })
  | none => (false, addNew s k v)

/-- Go `Probe`: on a hit set `visited` and return the existing value with
`true` (the argument is discarded); on a miss insert via `add` and return
the argument with `false`. -/
def Probe (s : Sieve K V) (k : K) (v : V) : (V × Bool) × Sieve K V :=
  match lookupNode s k with
  | some n => ((n.val, true), { s with list := markVisited k s.list })
  | none => ((v, false), addNew s k v)

/-- Go `remove(n)` reached from `Delete`: delete the key from the map,
splice the node out of the list, `size -= 1`. -/
def removeKey (s : Sieve K V) (k : K) : Sieve K V :=
  { s with list := s.list.eraseP (fun n => decide (n.key = k)), size := s.size - 1 }

/-- Go `Delete`: remove on a hit, report whether the key was present. -/
def Delete (s : Sieve K V) (k : K) : Bool × Sieve K V :=
  match lookupNode s k with
  | some _ => (true, removeKey s k)
  | none => (false, s)

/-- Go `Purge`: clears the map (`clear` + fresh map) and nils `head` and
`tail`.  The source resets neither `size` nor `hand`. -/
def Purge (s : Sieve K V) : Sieve K V :=
  { s with list := [] }

/-- Go `Len`: returns the `size` field. -/
def Len (s : Sieve K V) : Int := s.size

/-- Go `Cap`: returns the `capacity` field. -/
def Cp (s : Sieve K V) : Int := s.capacity

/-- One public operation of the API, for statements quantifying over
operation sequences (`Len` and `Cap` are state-neutral reads). -/
inductive Op (K V : Type) where
  | get (k : K)
  | add (k : K) (v : V)
  | probe (k : K) (v : V)
  | del (k : K)
  | purge
  | len
  | cap

/-- Run one public operation for its state effect. -/
def applyOp (s : Sieve K V) : Op K V → Sieve K V
  | .get k => (Get s k).2
  | .add k v => (Add s k v).2
  | .probe k v => (Probe s k v).2
  | .del k => (Delete s k).2
  | .purge => Purge s
  | .len => s
  | .cap => s

/-- Run a sequence of public operations. -/
def applyOps (s : Sieve K V) (ops : List (Op K V)) : Sieve K V :=
  ops.foldl applyOp s

/-- Insert each key with itself as value, in order, via the public `Add`. -/
def addAll (s : Sieve Nat Nat) (ks : List Nat) : Sieve Nat Nat :=
  ks.foldl (fun t k => (Add t k k).2) s

/-- The spec's capacity-4 scenario: Add 1,2,3,4, re-Add 1 (marks it
visited), then Add 5, which triggers the one eviction. -/
def scenario4 : Sieve Nat Nat :=
  let s := (Add (NewSieveCache Nat Nat 4) 1 10).2
  let s := (Add s 2 20).2
  let s := (Add s 3 30).2
  let s := (Add s 4 40).2
  let s := (Add s 1 99).2
  (Add s 5 50).2

end GoSieve

namespace GoSieve

set_option linter.unusedSectionVars false

variable {K V : Type} [DecidableEq K] [Inhabited V]

/-- Updating, in place, exactly the nodes that carry key `k` with a
key-preserving function commutes with the map lookup for `k`. -/
theorem find?_map_keyed (g : SNode K V → SNode K V) (hg : ∀ n, (g n).key = n.key)
    (k : K) (l : List (SNode K V)) :
    (l.map (fun n => if n.key = k then g n else n)).find? (fun n => decide (n.key = k))
      = Option.map g (l.find? (fun n => decide (n.key = k))) := by
  induction l with
  | nil => rfl
  | cons h t ih =>
    by_cases hk : h.key = k
    · simp [List.find?, hk, hg]
    · simp [List.find?, hk, ih]

/-- A key-preserving in-place update of the key-`k` nodes leaves the
sequence of keys (hence the list structure) unchanged. -/
theorem map_key_map_keyed (g : SNode K V → SNode K V) (hg : ∀ n, (g n).key = n.key)
    (k : K) (l : List (SNode K V)) :
    (l.map (fun n => if n.key = k then g n else n)).map SNode.key = l.map SNode.key := by
  induction l with
  | nil => rfl
  | cons h t ih =>
    by_cases hk : h.key = k <;> simp [hk, hg, ih]

/-- After `Add k v`, the map resolves `k` to a node storing `v` (visited
when the key was replaced, fresh otherwise). -/
theorem lookup_add_self (s : Sieve K V) (k : K) (v : V) :
    ∃ b, lookupNode (Add s k v).2 k = some ⟨k, v, b⟩ := by
  unfold Add
  cases h : lookupNode s k with
  | none =>
    refine ⟨false, ?_⟩
    simp only [h]
    simp [addNew, lookupNode, List.find?]
  | some n =>
    refine ⟨true, ?_⟩
    have h2 := h
    rw [lookupNode] at h2
    have hk : n.key = k := by simpa using List.find?_some h2
    simp only [h, lookupNode]
    rw [find?_map_keyed (fun m => { m with visited := true, val := v })
      (fun _ => rfl) k s.list, h2]
    simp [hk]

/-- C1: the spec claims `Len() = 0` after `Purge()`.  Evaluating the code:
on a capacity-2 cache holding one entry, `Purge` leaves `Len` at the stale
value 1 (the source never resets `size`), even though the purged key does
report `found = false` on a subsequent `Get`.  This contradicts the
claimed `Len() = 0`. -/
theorem claim_C1_purge_stale_len :
    Len (Purge (Add (NewSieveCache Nat Nat 2) 1 10).2) = 1
    ∧ (Get (Purge (Add (NewSieveCache Nat Nat 2) 1 10).2) 1).1.2 = false
    ∧ ¬ Len (Purge (Add (NewSieveCache Nat Nat 2) 1 10).2) = 0 := by
  refine ⟨by decide, by decide, by decide⟩

/-- C2: the spec claims that after an eviction the stored hand rests on the
victim's former predecessor.  Evaluating the code on the capacity-4
scenario (victim is key 2, its predecessor key 3): the stored `hand` field
is still `none` after the eviction — `evict` only reads it into a local
variable and never writes it back, so the next sweep restarts at the
tail. -/
theorem claim_C2_hand_not_persistent :
    scenario4.hand = none
    ∧ scenario4.hand ≠ some 3
    ∧ (Get scenario4 2).1.2 = false := by
  refine ⟨by decide, by decide, by decide⟩

/-- C3: the spec claims `0 ≤ Len() ≤ Cap()` after every call of every
operation sequence on a positive-capacity cache.  Evaluating the code on
capacity 1 with the sequence Add 1, Purge, Add 2: the stale `size` kept by
`Purge` makes the final `Add` skip nothing and grow `size` to 2, so
`Len() = 2 > 1 = Cap()`. -/
theorem claim_C3_len_exceeds_cap :
    Len (applyOps (NewSieveCache Nat Nat 1) [.add 1 10, .purge, .add 2 20]) = 2
    ∧ Cp (applyOps (NewSieveCache Nat Nat 1) [.add 1 10, .purge, .add 2 20]) = 1
    ∧ ¬ Len (applyOps (NewSieveCache Nat Nat 1) [.add 1 10, .purge, .add 2 20])
        ≤ Cp (applyOps (NewSieveCache Nat Nat 1) [.add 1 10, .purge, .add 2 20]) := by
  refine ⟨by decide, by decide, by decide⟩

/-- C10: construction does not validate capacity: `NewSieveCache` stores
any integer capacity unchecked (size starts at 0), and on a capacity-0
cache `Add` of a new key runs the eviction (a no-op on the empty list),
still inserts, and returns `replaced = false`; afterwards `Get` finds the
key and `Len() = 1` exceeds `Cap() = 0`. -/
theorem claim_C10_zero_capacity :
    (∀ c : Int, Cp (NewSieveCache Nat Nat c) = c ∧ Len (NewSieveCache Nat Nat c) = 0)
    ∧ (Add (NewSieveCache Nat Nat 0) 7 42).1 = false
    ∧ (Get (Add (NewSieveCache Nat Nat 0) 7 42).2 7).1 = (42, true)
    ∧ Len (Add (NewSieveCache Nat Nat 0) 7 42).2 = 1
    ∧ Cp (Add (NewSieveCache Nat Nat 0) 7 42).2 = 0
    ∧ Cp (Add (NewSieveCache Nat Nat 0) 7 42).2
        < Len (Add (NewSieveCache Nat Nat 0) 7 42).2 := by
  exact ⟨fun c => ⟨rfl, rfl⟩, by decide, by decide, by decide, by decide, by decide⟩

/-- C5: Probe never overwrites: after `Add k v1`, `Probe k v2` returns the
stored `(v1, true)`, marks the entry visited (the map now resolves `k` to
the node `⟨k, v1, true⟩`, with `v2` discarded), and a subsequent `Get k`
still returns `(v1, true)`; on an absent key `Probe k v2` returns
`(v2, false)` and inserts `k` storing `v2` (a fresh unvisited node). -/
theorem claim_C5_probe_preserves (s : Sieve K V) (k : K) (v1 v2 : V) :
    ((Probe (Add s k v1).2 k v2).1 = (v1, true)
      ∧ lookupNode (Probe (Add s k v1).2 k v2).2 k = some ⟨k, v1, true⟩
      ∧ (Get (Probe (Add s k v1).2 k v2).2 k).1 = (v1, true))
    ∧ (lookupNode s k = none →
        (Probe s k v2).1 = (v2, false)
        ∧ lookupNode (Probe s k v2).2 k = some ⟨k, v2, false⟩) := by
  constructor
  · obtain ⟨b, hb⟩ := lookup_add_self s k v1
    set s1 := (Add s k v1).2 with hs1
    have hb2 := hb
    rw [lookupNode] at hb2
    have hp : Probe s1 k v2 = ((v1, true), { s1 with list := markVisited k s1.list }) := by
      unfold Probe
      rw [hb]
    have hm : lookupNode { s1 with list := markVisited k s1.list } k
        = some ⟨k, v1, true⟩ := by
      show (markVisited k s1.list).find? _ = _
      unfold markVisited
      rw [find?_map_keyed (fun m => { m with visited := true }) (fun _ => rfl) k s1.list,
        hb2]
      rfl
    refine ⟨by rw [hp], by rw [hp]; exact hm, ?_⟩
    rw [hp]
    unfold Get
    rw [hm]
  · intro h
    refine ⟨by unfold Probe; rw [h], ?_⟩
    unfold Probe
    rw [h]
    show (addNew s k v2).list.find? _ = _
    simp [addNew, List.find?]

/-- C5 witness: on a concrete empty cache, Probe of an absent key inserts
`⟨0, 5, false⟩` and returns the supplied value with `false`; after
`Add 0 1`, Probe with value 9 returns the stored `(1, true)` and leaves
the node `⟨0, 1, true⟩` (visited set, 9 discarded). -/
theorem claim_C5_probe_preserves_witness :
    (Probe (NewSieveCache Nat Nat 2) 0 5).1 = (5, false)
    ∧ lookupNode (Probe (NewSieveCache Nat Nat 2) 0 5).2 0 = some ⟨0, 5, false⟩
    ∧ (Probe (Add (NewSieveCache Nat Nat 2) 0 1).2 0 9).1 = (1, true)
    ∧ lookupNode (Probe (Add (NewSieveCache Nat Nat 2) 0 1).2 0 9).2 0
        = some ⟨0, 1, true⟩ :=
  ⟨((claim_C5_probe_preserves (NewSieveCache Nat Nat 2) 0 1 5).2 rfl).1,
   ((claim_C5_probe_preserves (NewSieveCache Nat Nat 2) 0 1 5).2 rfl).2,
   (claim_C5_probe_preserves (NewSieveCache Nat Nat 2) 0 1 9).1.1,
   (claim_C5_probe_preserves (NewSieveCache Nat Nat 2) 0 1 9).1.2.1⟩

/-- C6: Add on an existing key replaces: the second `Add` returns `true`,
the stored value becomes `v2` with the visited flag set, and the key
sequence of the list, `size`, `hand` and `capacity` are all unchanged (no
eviction, no reordering). -/
theorem claim_C6_add_replace (s : Sieve K V) (k : K) (v1 v2 : V) :
    (Add (Add s k v1).2 k v2).1 = true
    ∧ (Get (Add (Add s k v1).2 k v2).2 k).1 = (v2, true)
    ∧ lookupNode (Add (Add s k v1).2 k v2).2 k = some ⟨k, v2, true⟩
    ∧ (Add (Add s k v1).2 k v2).2.list.map SNode.key
        = (Add s k v1).2.list.map SNode.key
    ∧ (Add (Add s k v1).2 k v2).2.size = (Add s k v1).2.size
    ∧ (Add (Add s k v1).2 k v2).2.hand = (Add s k v1).2.hand
    ∧ (Add (Add s k v1).2 k v2).2.capacity = (Add s k v1).2.capacity := by
  obtain ⟨b, hb⟩ := lookup_add_self s k v1
  set s1 := (Add s k v1).2 with hs1
  have hb2 := hb
  rw [lookupNode] at hb2
  have hrepl : Add s1 k v2 = (true, { s1 with
      list := s1.list.map (fun n =>
        if n.key = k then { n with visited := true, val := v2 } else n) }) := by
    unfold Add
    rw [hb]
  have hm : lookupNode (Add s1 k v2).2 k = some ⟨k, v2, true⟩ := by
    rw [hrepl]
    show (s1.list.map _).find? _ = _
    rw [find?_map_keyed (fun m => { m with visited := true, val := v2 })
      (fun _ => rfl) k s1.list, hb2]
    rfl
  refine ⟨by rw [hrepl], ?_, hm, ?_, by rw [hrepl], by rw [hrepl], by rw [hrepl]⟩
  · unfold Get
    rw [hm]
  · rw [hrepl]
    exact map_key_map_keyed (fun m => { m with visited := true, val := v2 })
      (fun _ => rfl) k s1.list

/-- C7: Get mutates only the visited flag: on a hit it returns the stored
value with `true`, leaves `size`, `hand`, `capacity` and the key sequence
unchanged, and rewrites the list pointwise so that every node keeps its
key and value and only nodes keyed `k` have their flag forced to `true`;
on a miss it returns `(default, false)` and the state is unchanged. -/
theorem claim_C7_get_frame (s : Sieve K V) (k : K) :
    (∀ n, lookupNode s k = some n →
      (Get s k).1 = (n.val, true)
      ∧ (Get s k).2.size = s.size
      ∧ (Get s k).2.hand = s.hand
      ∧ (Get s k).2.capacity = s.capacity
      ∧ (Get s k).2.list.map SNode.key = s.list.map SNode.key
      ∧ List.Forall₂ (fun a c => c.key = a.key ∧ c.val = a.val
          ∧ c.visited = (if a.key = k then true else a.visited)) s.list (Get s k).2.list
      ∧ lookupNode (Get s k).2 k = some ⟨n.key, n.val, true⟩)
    ∧ (lookupNode s k = none → Get s k = ((default, false), s)) := by
  constructor
  · intro n hn
    have hn2 := hn
    rw [lookupNode] at hn2
    have hget : Get s k = ((n.val, true), { s with list := markVisited k s.list }) := by
      unfold Get
      rw [hn]
    refine ⟨by rw [hget], by rw [hget], by rw [hget], by rw [hget], ?_, ?_, ?_⟩
    · rw [hget]
      show (markVisited k s.list).map _ = _
      unfold markVisited
      exact map_key_map_keyed (fun m => { m with visited := true })
        (fun _ => rfl) k s.list
    · rw [hget]
      show List.Forall₂ _ s.list (markVisited k s.list)
      unfold markVisited
      rw [List.forall₂_map_right_iff, List.forall₂_same]
      intro a _
      by_cases hk : a.key = k <;> simp [hk]
    · rw [hget]
      show (markVisited k s.list).find? _ = _
      unfold markVisited
      rw [find?_map_keyed (fun m => { m with visited := true }) (fun _ => rfl) k s.list,
        hn2]
      rfl
  · intro hn
    unfold Get
    rw [hn]

/-- C7 witness: on the cache holding only key 1 with value 5, Get 1
returns `(5, true)` and Get 2 misses without changing the state. -/
theorem claim_C7_get_frame_witness :
    (Get (Add (NewSieveCache Nat Nat 2) 1 5).2 1).1 = (5, true)
    ∧ Get (Add (NewSieveCache Nat Nat 2) 1 5).2 2
        = ((default, false), (Add (NewSieveCache Nat Nat 2) 1 5).2) :=
  ⟨((claim_C7_get_frame (Add (NewSieveCache Nat Nat 2) 1 5).2 1).1
      ⟨1, 5, false⟩ (by decide)).1,
   (claim_C7_get_frame (Add (NewSieveCache Nat Nat 2) 1 5).2 2).2 (by decide)⟩

/-- One unfolding step of the scan loop: fuel left, node under the hand. -/
theorem evictFrom_succ_cons (fuel : Nat) (done rest : List (SNode K V)) (n : SNode K V) :
    evictFrom (fuel + 1) done (n :: rest)
      = if n.visited then evictFrom fuel (done ++ [{ n with visited := false }]) rest
        else (done ++ rest, some n) := rfl

/-- One unfolding step of the scan loop: the wrap back to the tail. -/
theorem evictFrom_succ_wrap (fuel : Nat) (d : SNode K V) (ds : List (SNode K V)) :
    evictFrom (fuel + 1) (d :: ds) [] = evictFrom fuel [] (d :: ds) := rfl

/-- The loop exits without removal only when nothing is left to scan. -/
theorem evictFrom_succ_empty (fuel : Nat) :
    evictFrom (fuel + 1) ([] : List (SNode K V)) [] = ([], none) := rfl

/-- The node under the hand is unvisited: it is removed on the spot. -/
theorem evictFrom_unvisited (fuel : Nat) (done rest : List (SNode K V))
    (n : SNode K V) (h : n.visited = false) :
    evictFrom (fuel + 1) done (n :: rest) = (done ++ rest, some n) := by
  rw [evictFrom_succ_cons, h]
  simp

/-- Scanning over a visited run clears each flag and moves it behind the
hand, consuming one unit of fuel per node. -/
theorem evictFrom_visited_run (a : List (SNode K V)) :
    (∀ m ∈ a, m.visited = true) → ∀ (fuel : Nat) (done b : List (SNode K V)),
    evictFrom (a.length + fuel) done (a ++ b)
      = evictFrom fuel (done ++ a.map (fun m => { m with visited := false })) b := by
  induction a with
  | nil =>
    intro _ fuel done b
    simp
  | cons m a' ih =>
    intro h fuel done b
    have hm : m.visited = true := h m (by simp)
    have hstep : (m :: a').length + fuel = (a'.length + fuel) + 1 := by
      simp [List.length_cons]
      omega
    rw [hstep, List.cons_append, evictFrom_succ_cons, hm]
    simp only [if_true]
    have hrest := ih (fun x hx => h x (by simp [hx])) fuel
      (done ++ [{ m with visited := false }]) b
    rw [hrest]
    simp

/-- Once the scan has settled on a removal, more fuel does not change the
outcome (the loop has already returned). -/
theorem evictFrom_mono (f : Nat) :
    ∀ (done todo res : List (SNode K V)) (n : SNode K V),
    evictFrom f done todo = (res, some n) →
    ∀ g, f ≤ g → evictFrom g done todo = (res, some n) := by
  induction f with
  | zero =>
    intro done todo res n h g hg
    simp [evictFrom] at h
  | succ f ih =>
    intro done todo res n h g hg
    obtain ⟨g', rfl⟩ : ∃ g', g = g' + 1 := ⟨g - 1, by omega⟩
    cases todo with
    | nil =>
      cases done with
      | nil => simp [evictFrom_succ_empty] at h
      | cons d ds =>
        rw [evictFrom_succ_wrap] at h
        rw [evictFrom_succ_wrap]
        exact ih _ _ _ _ h g' (by omega)
    | cons m rest =>
      rw [evictFrom_succ_cons] at h
      rw [evictFrom_succ_cons]
      by_cases hv : m.visited
      · simp only [hv, if_true] at h ⊢
        exact ih _ _ _ _ h g' (by omega)
      · simp only [hv, if_false] at h ⊢
        exact h

/-- The head of a `dropWhile` fails the predicate. -/
theorem dropWhile_head_false {α : Type} (p : α → Bool) :
    ∀ (l : List α) (n : α) (b : List α), l.dropWhile p = n :: b → p n = false := by
  intro l
  induction l with
  | nil => intro n b h; simp [List.dropWhile] at h
  | cons x xs ih =>
    intro n b h
    by_cases hx : p x
    · rw [List.dropWhile_cons_of_pos hx] at h
      exact ih n b h
    · rw [List.dropWhile_cons_of_neg hx] at h
      cases h
      simpa using hx

/-- Clearing flags does not change the key sequence. -/
theorem map_key_clear (a : List (SNode K V)) :
    (a.map (fun m => { m with visited := false })).map SNode.key = a.map SNode.key := by
  induction a with
  | nil => rfl
  | cons x xs ih => simp [ih]

/-- The scan loop, started at the tail of a non-empty cache with fuel for
one full pass plus the wrap, removes exactly one node: the keys of the
result are the original key sequence with the victim's occurrence cut
out. -/
theorem evictFrom_total (r : List (SNode K V)) (hr : r ≠ []) :
    ∃ r2 v, evictFrom (r.length + 2) [] r = (r2, some v)
      ∧ ∃ xs ys, r.map SNode.key = xs ++ v.key :: ys
        ∧ r2.map SNode.key = xs ++ ys := by
  have hab : r.takeWhile (fun m => m.visited) ++ r.dropWhile (fun m => m.visited) = r :=
    List.takeWhile_append_dropWhile (fun m => m.visited) r
  have hav : ∀ m ∈ r.takeWhile (fun m => m.visited), m.visited = true := by
    intro m hm
    simpa using List.mem_takeWhile_imp hm
  cases hb : r.dropWhile (fun m => m.visited) with
  | nil =>
    -- every node is visited: the first pass clears all flags, the wrap
    -- returns to the tail, whose cleared flag makes it the victim
    have hra : r.takeWhile (fun m => m.visited) = r := by
      have h2 := hab
      rw [hb, List.append_nil] at h2
      exact h2
    cases hc : r with
    | nil => exact absurd hc hr
    | cons a0 a' =>
      have hall : ∀ m ∈ a0 :: a', m.visited = true := by
        intro m hm
        apply hav
        rw [hra, hc]
        exact hm
      have h1 : evictFrom ((a0 :: a').length + 2) [] (a0 :: a')
          = evictFrom 2 ((a0 :: a').map (fun m => { m with visited := false })) [] := by
        have := evictFrom_visited_run (a0 :: a') hall 2 [] []
        simpa using this
      refine ⟨a'.map (fun m => { m with visited := false }), { a0 with visited := false },
        ?_, [], a'.map SNode.key, ?_, ?_⟩
      · rw [h1]
        show evictFrom 2
          ({ a0 with visited := false } :: a'.map (fun m => { m with visited := false })) [] = _
        rw [show (2 : Nat) = 1 + 1 from rfl, evictFrom_succ_wrap]
        rw [evictFrom_unvisited 0 [] _ _ rfl]
        simp
      · simp
      · rw [map_key_clear]
        simp
  | cons n b' =>
    have hnv : n.visited = false := dropWhile_head_false _ r n b' hb
    have hsplit : r = r.takeWhile (fun m => m.visited) ++ n :: b' := by
      rw [← hb, hab]
    set a := r.takeWhile (fun m => m.visited) with hadef
    have hlen : r.length + 2 = a.length + (b'.length + 3) := by
      rw [hsplit]
      simp
      omega
    refine ⟨a.map (fun m => { m with visited := false }) ++ b', n, ?_,
      a.map SNode.key, b'.map SNode.key, ?_, ?_⟩
    · rw [hlen]
      conv_lhs => rw [hsplit]
      rw [evictFrom_visited_run a hav (b'.length + 3) [] (n :: b')]
      rw [evictFrom_unvisited (b'.length + 2) _ _ _ hnv]
      simp
    · conv_lhs => rw [hsplit]
      simp
    · rw [List.map_append, map_key_clear]

/-- C8: on a non-empty cache (stored hand nil, as it always is), `evict`
terminates within one pass plus the wrap — fuel `size + 2` already yields
the final answer and any larger fuel gives the same result — and removes
exactly one entry: `size` drops by one, the list shrinks by one node, and
the key sequence of the result is the original with exactly the victim's
occurrence cut out (no insertions).  The index is the lookup over this
list, so the entry leaves list and index together. -/
theorem claim_C8_evict_one_pass (s : Sieve K V) (h0 : s.hand = none)
    (hne : s.list ≠ []) :
    (evict s).size = s.size - 1
    ∧ (evict s).list.length + 1 = s.list.length
    ∧ (∃ xs k ys, s.list.reverse.map SNode.key = xs ++ k :: ys
        ∧ (evict s).list.reverse.map SNode.key = xs ++ ys)
    ∧ (∀ f, s.list.length + 2 ≤ f →
        evictFrom f [] s.list.reverse = evictFrom (s.list.length + 2) [] s.list.reverse) := by
  have hrne : s.list.reverse ≠ [] := by simpa using hne
  obtain ⟨r2, v, hev, xs, ys, hk1, hk2⟩ := evictFrom_total s.list.reverse hrne
  have hlenr : s.list.reverse.length = s.list.length := List.length_reverse s.list
  have hevict : evict s = { s with list := r2.reverse, size := s.size - 1 } := by
    unfold evict startSplit
    rw [h0]
    simp only
    rw [hev]
  have hlens : r2.length + 1 = s.list.length := by
    have h1 := congrArg List.length hk1
    have h2 := congrArg List.length hk2
    simp at h1 h2
    omega
  refine ⟨by rw [hevict], ?_, ⟨xs, v.key, ys, hk1, ?_⟩, ?_⟩
  · rw [hevict]
    simpa using hlens
  · rw [hevict]
    simpa using hk2
  · intro f hf
    have hm := evictFrom_mono _ _ _ _ _ hev f (by omega)
    rw [hlenr] at hev
    rw [hm, hev]

/-- C8 witness: a concrete two-element cache built through the public API
loses exactly one entry on eviction. -/
theorem claim_C8_evict_one_pass_witness :
    (evict (Add (Add (NewSieveCache Nat Nat 3) 1 1).2 2 2).2).size
        = (Add (Add (NewSieveCache Nat Nat 3) 1 1).2 2 2).2.size - 1
    ∧ (evict (Add (Add (NewSieveCache Nat Nat 3) 1 1).2 2 2).2).list.length + 1
        = (Add (Add (NewSieveCache Nat Nat 3) 1 1).2 2 2).2.list.length :=
  ⟨(claim_C8_evict_one_pass (Add (Add (NewSieveCache Nat Nat 3) 1 1).2 2 2).2
      rfl (by decide)).1,
   (claim_C8_evict_one_pass (Add (Add (NewSieveCache Nat Nat 3) 1 1).2 2 2).2
      rfl (by decide)).2.1⟩

/-- Go `evict` never writes the `hand` field back. -/
theorem evict_hand (t : Sieve K V) : (evict t).hand = t.hand := by
  unfold evict
  dsimp only
  split <;> rfl

/-- No single public operation writes the `hand` field. -/
theorem applyOp_hand (s : Sieve K V) (op : Op K V) : (applyOp s op).hand = s.hand := by
  have haddNew : ∀ (k : K) (v : V) (t : Sieve K V), (addNew t k v).hand = t.hand := by
    intro k v t
    show (if t.size = t.capacity then evict t else t).hand = t.hand
    by_cases hc : t.size = t.capacity
    · simp [hc, evict_hand]
    · simp [hc]
  cases op with
  | get k =>
    show (Get s k).2.hand = s.hand
    unfold Get
    cases lookupNode s k <;> simp
  | add k v =>
    show (Add s k v).2.hand = s.hand
    unfold Add
    cases lookupNode s k with
    | none => simpa using haddNew k v s
    | some n => simp
  | probe k v =>
    show (Probe s k v).2.hand = s.hand
    unfold Probe
    cases lookupNode s k with
    | none => simpa using haddNew k v s
    | some n => simp
  | del k =>
    show (Delete s k).2.hand = s.hand
    unfold Delete
    cases lookupNode s k <;> simp [removeKey]
  | purge => rfl
  | len => rfl
  | cap => rfl

/-- C9: the stored `hand` field stays null forever: no public operation
assigns it (in the source `evict` scans through a local copy and never
writes it back, and `remove` and `Purge` do not touch it), so after any
sequence of public operations on a fresh cache the field is still `none` —
every eviction sweep therefore starts at the current tail. -/
theorem claim_C9_hand_never_assigned :
    (∀ (s : Sieve K V) (op : Op K V), (applyOp s op).hand = s.hand)
    ∧ (∀ (c : Int) (ops : List (Op K V)),
        (applyOps (NewSieveCache K V c) ops).hand = none) := by
  refine ⟨applyOp_hand, ?_⟩
  intro c ops
  suffices h : ∀ (t : Sieve K V), t.hand = none → (applyOps t ops).hand = none from
    h _ rfl
  induction ops with
  | nil => intro t ht; exact ht
  | cons op rest ih =>
    intro t ht
    show (applyOps (applyOp t op) rest).hand = none
    exact ih _ (by rw [applyOp_hand]; exact ht)

/-- Filling phase: adding a run of distinct, absent keys into a cache with
enough spare capacity triggers no eviction — each key becomes a fresh
unvisited node at the head, and `size` grows by the number of keys. -/
theorem addAll_fresh (ks : List Nat) :
    ∀ (s : Sieve Nat Nat), ks.Nodup →
    (∀ k ∈ ks, ∀ n ∈ s.list, n.key ≠ k) →
    s.size + (ks.length : Int) ≤ s.capacity →
    s.size = (s.list.length : Int) →
    addAll s ks = { list := ks.reverse.map (fun k => ⟨k, k, false⟩) ++ s.list,
                    hand := s.hand, size := s.size + (ks.length : Int),
                    capacity := s.capacity } := by
  induction ks with
  | nil =>
    intro s _ _ _ _
    show s = _
    cases s
    simp
  | cons k ks' ih =>
    intro s hnd hfresh hcap hsz
    have hmiss : lookupNode s k = none := by
      rw [lookupNode, List.find?_eq_none]
      intro n hn
      simpa using hfresh k (by simp) n hn
    have hne : ¬ s.size = s.capacity := by
      have : (ks'.length : Int) ≥ 0 := Int.ofNat_nonneg _
      simp only [List.length_cons] at hcap
      push_cast at hcap
      omega
    have hstep : (Add s k k).2
        = { list := ⟨k, k, false⟩ :: s.list, hand := s.hand,
            size := s.size + 1, capacity := s.capacity } := by
      unfold Add
      rw [hmiss]
      show addNew s k k = _
      unfold addNew
      rw [if_neg hne]
    show addAll (Add s k k).2 ks' = _
    rw [hstep]
    rw [ih _ (by exact (List.nodup_cons.mp hnd).2) ?fresh ?cap ?sz]
    case fresh =>
      intro k' hk' n hn
      rcases List.mem_cons.mp hn with h | h
      · subst h
        show k ≠ k'
        intro hkk
        exact (List.nodup_cons.mp hnd).1 (hkk ▸ hk')
      · exact hfresh k' (by simp [hk']) n h
    case cap =>
      simp only [List.length_cons] at hcap
      push_cast at hcap ⊢
      omega
    case sz =>
      simp only [List.length_cons]
      push_cast
      omega
    simp only [List.reverse_cons, List.map_append, List.map_cons, List.map_nil,
      List.append_assoc, List.singleton_append, List.length_cons]
    simp only [Sieve.mk.injEq, true_and, and_true]
    push_cast
    omega

/-- With the stored hand nil, the sweep starts at the tail; when the tail
node is unvisited it is evicted immediately. -/
theorem evict_tail_unvisited (t : Sieve K V) (h0 : t.hand = none)
    (a : SNode K V) (l : List (SNode K V)) (hl : t.list = l ++ [a])
    (ha : a.visited = false) :
    evict t = { t with list := l, size := t.size - 1 } := by
  have hr : t.list.reverse = a :: l.reverse := by
    rw [hl]
    simp
  unfold evict startSplit
  rw [h0]
  dsimp only
  rw [hr]
  have hfuel : (a :: l.reverse).length + 2 = (l.reverse.length + 2) + 1 := by
    simp
  rw [hfuel, evictFrom_unvisited _ _ _ _ ha]
  simp

/-- C4: inserting `capacity + 1` distinct new keys (capacity `1 + |mid| ≥ 1`,
keys `k0, mid…, klast`) into an empty cache evicts exactly one entry — the
final `Len` equals the capacity and the missing key is `k0`, the
earliest-inserted (none is visited, so the sweep takes the tail) — and the
spec's concrete capacity-4 scenario: Add 1,2,3,4 all report `false`,
re-Add of 1 reports `true`, Add 5 reports `false` and evicts key 2 (the
oldest unvisited), after which `Get 2` misses while 1, 3, 4, 5 remain. -/
theorem claim_C4_eviction_on_full :
    (∀ (k0 klast : Nat) (mid : List Nat),
      (k0 :: (mid ++ [klast])).Nodup →
      Len (addAll (NewSieveCache Nat Nat (1 + (mid.length : Int)))
            (k0 :: (mid ++ [klast]))) = 1 + (mid.length : Int)
      ∧ lookupNode (addAll (NewSieveCache Nat Nat (1 + (mid.length : Int)))
            (k0 :: (mid ++ [klast]))) k0 = none
      ∧ (∀ k ∈ mid, (lookupNode (addAll (NewSieveCache Nat Nat (1 + (mid.length : Int)))
            (k0 :: (mid ++ [klast]))) k).isSome = true)
      ∧ (lookupNode (addAll (NewSieveCache Nat Nat (1 + (mid.length : Int)))
            (k0 :: (mid ++ [klast]))) klast).isSome = true)
    ∧ ((Add (NewSieveCache Nat Nat 4) 1 10).1 = false
      ∧ (Add (Add (NewSieveCache Nat Nat 4) 1 10).2 2 20).1 = false
      ∧ (Add (Add (Add (NewSieveCache Nat Nat 4) 1 10).2 2 20).2 3 30).1 = false
      ∧ (Add (Add (Add (Add (NewSieveCache Nat Nat 4) 1 10).2 2 20).2 3 30).2 4 40).1
          = false
      ∧ (Add (Add (Add (Add (Add (NewSieveCache Nat Nat 4) 1 10).2 2 20).2 3 30).2
          4 40).2 1 99).1 = true
      ∧ (Add (Add (Add (Add (Add (Add (NewSieveCache Nat Nat 4) 1 10).2 2 20).2
          3 30).2 4 40).2 1 99).2 5 50).1 = false
      ∧ (Get scenario4 2).1.2 = false
      ∧ Len scenario4 = 4
      ∧ (lookupNode scenario4 1).isSome = true
      ∧ (lookupNode scenario4 3).isSome = true
      ∧ (lookupNode scenario4 4).isSome = true
      ∧ (lookupNode scenario4 5).isSome = true) := by
  constructor
  · intro k0 klast mid hnd
    rw [List.nodup_cons] at hnd
    obtain ⟨hk0, hrest⟩ := hnd
    have h0m : k0 ∉ mid := fun h => hk0 (List.mem_append_left _ h)
    have h0l : k0 ≠ klast := fun h => hk0 (List.mem_append_right _ (by simp [h]))
    have hmnd : mid.Nodup := hrest.of_append_left
    have hlm : klast ∉ mid := fun h =>
      (List.disjoint_of_nodup_append hrest) h (by simp)
    have hfill := addAll_fresh (k0 :: mid) (NewSieveCache Nat Nat (1 + (mid.length : Int)))
      (List.nodup_cons.mpr ⟨h0m, hmnd⟩)
      (by intro k _ n hn; simp [NewSieveCache] at hn)
      (by simp [NewSieveCache]; omega)
      (by simp [NewSieveCache])
    set s1 := addAll (NewSieveCache Nat Nat (1 + (mid.length : Int))) (k0 :: mid) with hs1
    have hsplit : addAll (NewSieveCache Nat Nat (1 + (mid.length : Int)))
        (k0 :: (mid ++ [klast])) = (Add s1 klast klast).2 := by
      rw [hs1]
      show List.foldl _ _ ((k0 :: mid) ++ [klast]) = _
      rw [List.foldl_append]
      rfl
    have hmiss : lookupNode s1 klast = none := by
      rw [hfill, lookupNode, List.find?_eq_none]
      intro n hn
      simp only [NewSieveCache, List.append_nil, List.mem_map, List.mem_reverse] at hn
      obtain ⟨k, hk, rfl⟩ := hn
      simp only [decide_eq_true_eq]
      rcases List.mem_cons.mp hk with h | h
      · subst h
        exact h0l
      · intro hkk
        exact hlm (hkk ▸ h)
    have hlist1 : s1.list = mid.reverse.map (fun k => ⟨k, k, false⟩)
        ++ [⟨k0, k0, false⟩] := by
      rw [hfill]
      simp [NewSieveCache]
    have hhand1 : s1.hand = none := by
      rw [hfill]
      rfl
    have hfull : s1.size = s1.capacity := by
      rw [hfill]
      simp [NewSieveCache]
      omega
    have hevict : evict s1 = { s1 with
        list := mid.reverse.map (fun k => ⟨k, k, false⟩),
        size := s1.size - 1 } :=
      evict_tail_unvisited s1 hhand1 _ _ hlist1 rfl
    have hstep : (Add s1 klast klast).2
        = { list := ⟨klast, klast, false⟩ :: mid.reverse.map (fun k => ⟨k, k, false⟩),
            hand := s1.hand, size := (s1.size - 1) + 1, capacity := s1.capacity } := by
      unfold Add
      rw [hmiss]
      show addNew s1 klast klast = _
      unfold addNew
      rw [if_pos hfull, hevict]
    rw [hsplit, hstep]
    refine ⟨?_, ?_, ?_, ?_⟩
    · show (s1.size - 1) + 1 = 1 + (mid.length : Int)
      rw [hfill]
      simp [NewSieveCache]
      omega
    · rw [lookupNode, List.find?_eq_none]
      intro n hn
      simp only [decide_eq_true_eq]
      rcases List.mem_cons.mp hn with h | h
      · subst h
        show ¬ klast = k0
        intro hkk
        exact h0l hkk.symm
      · simp only [List.mem_map, List.mem_reverse] at h
        obtain ⟨k, hk, rfl⟩ := h
        show ¬ k = k0
        intro hkk
        exact h0m (hkk ▸ hk)
    · intro k hk
      rw [lookupNode, List.find?_isSome]
      refine ⟨⟨k, k, false⟩, ?_, by simp⟩
      simp only [List.mem_cons, List.mem_map, List.mem_reverse]
      exact Or.inr ⟨k, hk, rfl⟩
    · rw [lookupNode, List.find?_isSome]
      exact ⟨⟨klast, klast, false⟩, by simp, by simp⟩
  · refine ⟨by decide, by decide, by decide, by decide, by decide, by decide,
      by decide, by decide, by decide, by decide, by decide, by decide⟩

/-- C4 witness: the general part instantiated at capacity 2 with keys
7, 8, 9: the earliest key 7 is evicted and the final length equals the
capacity 2. -/
theorem claim_C4_eviction_on_full_witness :
    Len (addAll (NewSieveCache Nat Nat (1 + (([8] : List Nat).length : Int)))
        (7 :: ([8] ++ [9]))) = 1 + (([8] : List Nat).length : Int)
    ∧ lookupNode (addAll (NewSieveCache Nat Nat (1 + (([8] : List Nat).length : Int)))
        (7 :: ([8] ++ [9]))) 7 = none :=
  ⟨(claim_C4_eviction_on_full.1 7 9 [8] (by decide)).1,
   (claim_C4_eviction_on_full.1 7 9 [8] (by decide)).2.1⟩

end GoSieve
